import Mathlib

/-!
Shallow embedding of `src/app.py` (abbreviation expansion and transaction
categorization pipeline) and proofs of the specification's claims.

Python strings are modelled as Lean `String`; the Python string methods used
by the source (`str.split()`, `str.split(", ")`, `str.strip()`, `" ".join`)
are embedded as structurally recursive functions on the character list so
that all definitions evaluate by kernel reduction.

The language model (`ollama.chat`) is an external collaborator: it is
modelled as an oracle function from the data the source interpolates into
the prompt (abbreviation, context, candidate list) to the reply text.
Pandas dataframes are modelled as a column list plus rows of
(column, value) cells; a cell absent from a row reads as `none` (NaN).
Python operations that can raise (`list[0]` on an empty list, an exception
escaping a loop) are modelled with `Option`.
-/

/-- Python `str.isspace` characters that matter here (models Python's
whitespace class for `str.split()` / `str.strip()`). -/
def isPySpace (c : Char) : Bool :=
  c == ' ' || c == '\t' || c == '\n' || c == '\r' || c == '\x0b' || c == '\x0c'

/-- Accumulator-style worker for whitespace splitting: `acc` holds the
characters of the token in progress, reversed. -/
def splitWsAux : List Char → List Char → List (List Char)
  | [], acc => if acc.isEmpty then [] else [acc.reverse]
  | c :: cs, acc =>
    if isPySpace c then
      if acc.isEmpty then splitWsAux cs [] else acc.reverse :: splitWsAux cs []
    else
      splitWsAux cs (c :: acc)

/-- Python `text.split()` (no argument): split on runs of whitespace,
discarding empty tokens and leading/trailing whitespace. -/
def pySplit (s : String) : List String :=
  (splitWsAux s.toList []).map (fun cs => String.mk cs)

/-- Python `s.strip()`: drop leading and trailing whitespace. -/
def pyStrip (s : String) : String :=
  String.mk (((s.toList.dropWhile isPySpace).reverse.dropWhile isPySpace).reverse)

/-- Worker for Python `s.split(", ")`: split on each occurrence of the
two-character separator, scanning left to right, keeping empty pieces. -/
def splitCommaSpaceAux : List Char → List Char → List (List Char)
  | [], acc => [acc.reverse]
  | ',' :: ' ' :: cs, acc => acc.reverse :: splitCommaSpaceAux cs []
  | c :: cs, acc => splitCommaSpaceAux cs (c :: acc)

/-- Python `s.split(", ")` as used by the dictionary loader. -/
def pySplitCommaSpace (s : String) : List String :=
  (splitCommaSpaceAux s.toList []).map (fun cs => String.mk cs)

/-- The abbreviation dictionary: a Python dict from abbreviation to the list
of candidate full words, embedded as an association list in insertion
order (Python dicts preserve insertion order). -/
abbrev AbbrMap := List (String × List String)

/-- One dictionary-loader step: the body of
`if abbr in abbreviation_map: abbreviation_map[abbr].append(full_word)
else: abbreviation_map[abbr] = [full_word]` in `load_abbreviation_dict`.
An existing key keeps its position and gets the word appended; a new key
is appended at the end mapping to the singleton list. -/
def dictAppend : AbbrMap → String → String → AbbrMap
  | [], k, v => [(k, [v])]
  | (k', vs) :: rest, k, v =>
    if k' = k then (k', vs ++ [v]) :: rest
    else (k', vs) :: dictAppend rest k v

/-- `load_abbreviation_dict` (src/app.py lines 15-37), with the rows of the
already-parsed spreadsheet as input: each row is the pair
(`Full_words` cell, `Abbreviation` cell). -/
def load_abbreviation_dict (rows : List (String × String)) : AbbrMap :=
  rows.foldl
    (fun m row =>
      (pySplitCommaSpace row.2).foldl (fun m abbr => dictAppend m abbr row.1) m)
    []

/-- The language model oracle: the reply text of `ollama.chat` for the
resolver prompt, as a function of the three values the source interpolates
into that prompt (abbreviation, context, candidate words). -/
abbrev LLM := String → String → List String → String

/-- `resolve_abbreviation_with_llm` (src/app.py lines 40-76): trim the model
reply; if it is not one of `possible_words`, fall back to
`possible_words[0]`. `possible_words[0]` on an empty list raises
`IndexError` in Python, modelled by `none` (`List.head?`). -/
def resolve_abbreviation_with_llm (llm : LLM) (abbreviation context : String)
    (possible_words : List String) : Option String :=
  let full_word := pyStrip (llm abbreviation context possible_words)
  if full_word ∈ possible_words then some full_word
  else possible_words.head?

/-- The loop body of `expand_abbreviations` for one token. -/
def expandWord (llm : LLM) (text : String) (abbreviation_map : AbbrMap)
    (word : String) : Option String :=
  match abbreviation_map.lookup word with
  | some possible_words =>
    if possible_words.length = 1 then possible_words.head?
    else resolve_abbreviation_with_llm llm word text possible_words
  | none => some word

/-- Python loop that builds a list from fallible steps: the first failure
(raised exception) aborts the whole computation. -/
def listMapOpt (f : α → Option β) : List α → Option (List β)
  | [] => some []
  | a :: as =>
    match f a, listMapOpt f as with
    | some b, some bs => some (b :: bs)
    | _, _ => none

/-- `expand_abbreviations` (src/app.py lines 79-107): split the text on
whitespace, expand each token via `expandWord`, rejoin with single
spaces. -/
def expand_abbreviations (llm : LLM) (text : String)
    (abbreviation_map : AbbrMap) : Option String :=
  (listMapOpt (expandWord llm text abbreviation_map) (pySplit text)).map
    (fun expanded_words => String.intercalate " " expanded_words)

/-! ## Resolver properties (C1, C10) -/

/-- Helper: with a non-empty candidate list the resolver succeeds and its
result is a member of the candidates; when the trimmed reply is not a
candidate the result is the first candidate. -/
theorem resolve_total (llm : LLM) (a c : String) (cands : List String)
    (h : cands ≠ []) :
    ∃ w, resolve_abbreviation_with_llm llm a c cands = some w ∧ w ∈ cands ∧
      (pyStrip (llm a c cands) ∉ cands → w = cands.headI) := by
  unfold resolve_abbreviation_with_llm
  by_cases hmem : pyStrip (llm a c cands) ∈ cands
  · exact ⟨_, by simp [hmem], hmem, fun hc => absurd hmem hc⟩
  · match cands, h with
    | w :: ws, _ =>
      exact ⟨w, by simp [hmem], List.mem_cons_self _ _, fun _ => rfl⟩

/-- C1: for any model reply and non-empty candidate list, the Resolver
returns (no exception) a member of the candidate list, and whenever the
trimmed reply is not exactly one of the candidates it returns the first
candidate in list order. -/
theorem resolver_returns_candidate (llm : LLM) (abbreviation context : String)
    (cands : List String) (h : cands ≠ []) :
    ∃ w, resolve_abbreviation_with_llm llm abbreviation context cands = some w ∧
      w ∈ cands ∧
      (pyStrip (llm abbreviation context cands) ∉ cands → w = cands.headI) :=
  resolve_total llm abbreviation context cands h

/-- Witness for C1: a model that replies with junk on candidates
`["Payment", "Permit"]`. -/
theorem resolver_returns_candidate_witness :
    ∃ w, resolve_abbreviation_with_llm (fun _ _ _ => "junk") "PMT" "ctx"
        ["Payment", "Permit"] = some w ∧
      w ∈ ["Payment", "Permit"] ∧
      (pyStrip ((fun _ _ _ => "junk") "PMT" "ctx" ["Payment", "Permit"]) ∉
          ["Payment", "Permit"] →
        w = (["Payment", "Permit"] : List String).headI) :=
  resolver_returns_candidate (fun _ _ _ => "junk") "PMT" "ctx"
    ["Payment", "Permit"] (by decide)

/-- C10: with a non-empty candidate list the Resolver is total (the
first-candidate fallback index is in bounds for every model reply); with an
empty candidate list the fallback indexing fails (Python `IndexError`,
modelled by `none`), so non-emptiness is necessary for totality. -/
theorem resolver_total_iff_nonempty (llm : LLM) (abbreviation context : String)
    (cands : List String) :
    (cands ≠ [] →
      (resolve_abbreviation_with_llm llm abbreviation context cands).isSome = true) ∧
    (cands = [] →
      resolve_abbreviation_with_llm llm abbreviation context cands = none) := by
  constructor
  · intro h
    obtain ⟨w, hw, -, -⟩ := resolve_total llm abbreviation context cands h
    simp [hw]
  · intro h
    subst h
    simp [resolve_abbreviation_with_llm]

/-- Witness for C10: totality at a singleton candidate list and failure at
the empty candidate list. -/
theorem resolver_total_iff_nonempty_witness :
    (resolve_abbreviation_with_llm (fun _ _ _ => "") "a" "b" ["x"]).isSome = true ∧
    resolve_abbreviation_with_llm (fun _ _ _ => "") "a" "b" [] = none :=
  ⟨(resolver_total_iff_nonempty (fun _ _ _ => "") "a" "b" ["x"]).1 (by decide),
   (resolver_total_iff_nonempty (fun _ _ _ => "") "a" "b" []).2 rfl⟩

/-! ## Expander properties (C3, C4, C8) -/

/-- Helper: a lookup hit comes from a pair of the association list. -/
theorem mem_of_lookup_eq_some {m : AbbrMap} {k : String} {vs : List String}
    (h : m.lookup k = some vs) : (k, vs) ∈ m := by
  induction m with
  | nil => simp [List.lookup] at h
  | cons p rest ih =>
    obtain ⟨k', vs'⟩ := p
    rw [List.lookup] at h
    by_cases hk : k = k'
    · subst hk
      simp at h
      simp [h]
    · have hbeq : (k == k') = false := beq_false_of_ne hk
      rw [hbeq] at h
      exact List.mem_cons_of_mem _ (ih h)

/-- Helper: a loop whose every step succeeds with its input unchanged
returns the input list. -/
theorem listMapOpt_eq_self (f : α → Option α) (l : List α)
    (h : ∀ a ∈ l, f a = some a) : listMapOpt f l = some l := by
  induction l with
  | nil => rfl
  | cons a as ih =>
    simp [listMapOpt, h a (List.mem_cons_self a as),
      ih fun x hx => h x (List.mem_cons_of_mem a hx)]

/-- Helper: a loop whose every step succeeds returns a list related
pointwise to the input. -/
theorem listMapOpt_rel (f : α → Option β) (R : α → β → Prop) (l : List α)
    (h : ∀ a ∈ l, ∃ b, f a = some b ∧ R a b) :
    ∃ bs, listMapOpt f l = some bs ∧ List.Forall₂ R l bs := by
  induction l with
  | nil => exact ⟨[], rfl, List.Forall₂.nil⟩
  | cons a as ih =>
    obtain ⟨b, hb, hR⟩ := h a (List.mem_cons_self a as)
    obtain ⟨bs, hbs, hrel⟩ := ih fun x hx => h x (List.mem_cons_of_mem a hx)
    exact ⟨b :: bs, by simp [listMapOpt, hb, hbs], List.Forall₂.cons hR hrel⟩

/-- The per-token contract of the Text Expander: a token absent from the map
is kept; a token with exactly one candidate becomes that candidate (no model
call); a token with several candidates becomes the Resolver's answer for
(token, original full text, candidates). -/
def tokenExpandsTo (llm : LLM) (text : String) (amap : AbbrMap)
    (tok w : String) : Prop :=
  match amap.lookup tok with
  | none => w = tok
  | some [] => resolve_abbreviation_with_llm llm tok text [] = some w
  | some [c] => w = c
  | some (c1 :: c2 :: rest) =>
    resolve_abbreviation_with_llm llm tok text (c1 :: c2 :: rest) = some w

/-- C3: for any map whose candidate lists are non-empty (the Loader
invariant), expansion splits the text on whitespace, maps each token by the
per-token contract `tokenExpandsTo` (unchanged when absent; the sole
candidate when unique; the Resolver's result on (token, original text,
candidates) when ambiguous), and rejoins the results with single spaces. -/
theorem expand_characterization (llm : LLM) (text : String) (amap : AbbrMap)
    (hne : ∀ p ∈ amap, p.2 ≠ []) :
    ∃ ws, expand_abbreviations llm text amap =
        some (String.intercalate " " ws) ∧
      List.Forall₂ (tokenExpandsTo llm text amap) (pySplit text) ws := by
  have hstep : ∀ tok ∈ pySplit text, ∃ w,
      expandWord llm text amap tok = some w ∧
      tokenExpandsTo llm text amap tok w := by
    intro tok _
    match hl : amap.lookup tok with
    | none => exact ⟨tok, by simp [expandWord, hl], by simp [tokenExpandsTo, hl]⟩
    | some [] => exact absurd rfl (hne (tok, []) (mem_of_lookup_eq_some hl))
    | some [c] =>
      exact ⟨c, by simp [expandWord, hl], by simp [tokenExpandsTo, hl]⟩
    | some (c1 :: c2 :: rest) =>
      obtain ⟨w, hw, -, -⟩ :=
        resolve_total llm tok text (c1 :: c2 :: rest) (by simp)
      exact ⟨w, by simp [expandWord, hl, hw], by simp [tokenExpandsTo, hl, hw]⟩
  obtain ⟨ws, hws, hrel⟩ := listMapOpt_rel _ _ _ hstep
  exact ⟨ws, by simp [expand_abbreviations, hws], hrel⟩

/-- Witness for C3: `"TXN for PMT"` with the dictionary of the spec's
end-to-end example and a model that answers `"Permit"`. -/
theorem expand_characterization_witness :
    ∃ ws, expand_abbreviations (fun _ _ _ => "Permit") "TXN for PMT"
        [("TXN", ["Transaction"]), ("PMT", ["Payment", "Permit"])] =
        some (String.intercalate " " ws) ∧
      List.Forall₂
        (tokenExpandsTo (fun _ _ _ => "Permit") "TXN for PMT"
          [("TXN", ["Transaction"]), ("PMT", ["Payment", "Permit"])])
        (pySplit "TXN for PMT") ws :=
  expand_characterization (fun _ _ _ => "Permit") "TXN for PMT"
    [("TXN", ["Transaction"]), ("PMT", ["Payment", "Permit"])] (by decide)

/-- Counterexample to C4 as stated: `"a  b"` (two spaces) has no tokens in
the empty map, yet expansion returns `"a b"`, not the original text —
rejoining with single spaces does not preserve the original spacing. -/
theorem expand_not_identity_counterexample :
    (∀ tok ∈ pySplit "a  b", (([] : AbbrMap).lookup tok) = none) ∧
    expand_abbreviations (fun _ _ _ => "") "a  b" [] = some "a b" ∧
    expand_abbreviations (fun _ _ _ => "") "a  b" [] ≠ some "a  b" :=
  ⟨by decide, by decide, by decide⟩

/-- C4 (amended): expansion is the identity on texts none of whose tokens
is a map key, provided the text is whitespace-normalized (it equals its own
tokens rejoined by single spaces). -/
theorem expand_identity_of_no_match (llm : LLM) (text : String)
    (amap : AbbrMap)
    (hno : ∀ tok ∈ pySplit text, amap.lookup tok = none)
    (hnorm : String.intercalate " " (pySplit text) = text) :
    expand_abbreviations llm text amap = some text := by
  have h : listMapOpt (expandWord llm text amap) (pySplit text) =
      some (pySplit text) :=
    listMapOpt_eq_self _ _ fun tok htok => by simp [expandWord, hno tok htok]
  simp [expand_abbreviations, h, hnorm]

/-- Witness for amended C4: a whitespace-normal text with no map tokens. -/
theorem expand_identity_of_no_match_witness :
    expand_abbreviations (fun _ _ _ => "") "hello world"
      [("TXN", ["Transaction"])] = some "hello world" :=
  expand_identity_of_no_match (fun _ _ _ => "") "hello world"
    [("TXN", ["Transaction"])] (by decide) (by decide)

/-- Counterexample to C8 as stated: with map `{"A": ["b  c"]}`, expanding
`"A"` yields `"b  c"`, whose tokens `b`, `c` are not map keys; yet
re-expanding `"b  c"` yields `"b c"` — not a no-op, because rejoining
normalizes the double space of the substituted candidate. -/
theorem expand_not_idempotent_counterexample :
    expand_abbreviations (fun _ _ _ => "") "A" [("A", ["b  c"])] =
      some "b  c" ∧
    (∀ tok ∈ pySplit "b  c",
      ([("A", ["b  c"])] : AbbrMap).lookup tok = none) ∧
    expand_abbreviations (fun _ _ _ => "") "b  c" [("A", ["b  c"])] ≠
      some "b  c" :=
  ⟨by decide, by decide, by decide⟩

/-- C8 (amended): expansion is idempotent on an expansion output that has
no remaining map keys among its tokens and is whitespace-normalized (as is
the case whenever every substituted candidate is itself a single-spaced
word sequence): re-expanding such an output, under any model behavior,
returns it unchanged. -/
theorem expand_idempotent_on_normalized (llm llm' : LLM) (text out : String)
    (amap : AbbrMap)
    (hout : expand_abbreviations llm text amap = some out)
    (hno : ∀ tok ∈ pySplit out, amap.lookup tok = none)
    (hnorm : String.intercalate " " (pySplit out) = out) :
    expand_abbreviations llm' out amap =
      expand_abbreviations llm text amap := by
  rw [hout]
  exact expand_identity_of_no_match llm' out amap hno hnorm

/-- Witness for amended C8: re-expanding the expansion of `"TXN x"`. -/
theorem expand_idempotent_on_normalized_witness :
    expand_abbreviations (fun _ _ _ => "") "Transaction x"
        [("TXN", ["Transaction"])] =
      expand_abbreviations (fun _ _ _ => "") "TXN x"
        [("TXN", ["Transaction"])] :=
  expand_idempotent_on_normalized (fun _ _ _ => "") (fun _ _ _ => "")
    "TXN x" "Transaction x" [("TXN", ["Transaction"])]
    (by decide) (by decide) (by decide)

/-! ## Dataframe model and reconciliation (C2, C5, C9) -/

/-- A dataframe row: the cells present in it, as (column, value) pairs. -/
abbrev Row := List (String × String)

/-- A pandas dataframe: an ordered column list and the rows. A column
missing from a row reads as NaN. -/
structure DataFrame where
  cols : List String
  rows : List Row

/-- Read one cell; `none` is NaN / missing. -/
def getCell (r : Row) (c : String) : Option String := r.lookup c

/-- Per-row effect of a pandas column assignment: the cell for `c` becomes
`v` (any previous cell for `c` is dropped, the new cell sits in the
appended column position). -/
def setCell (r : Row) (c v : String) : Row :=
  (r.filter fun kv => !(kv.1 == c)) ++ [(c, v)]

/-- `df[c] = v`: constant column assignment, appending the column when it
is absent. -/
def setColumn (df : DataFrame) (c v : String) : DataFrame :=
  { cols := if c ∈ df.cols then df.cols else df.cols ++ [c]
    rows := df.rows.map fun r => setCell r c v }

/-- `df.iloc[n:]` (keep the rows from position `n` on). -/
def ilocFrom (df : DataFrame) (n : Nat) : DataFrame :=
  { cols := df.cols, rows := df.rows.drop n }

/-- `pd.concat([df1, df2], ignore_index=True)`: the columns of `df1`
followed by the new columns of `df2`; rows stacked in order, a cell absent
from a row reading as NaN. -/
def concatDF (df1 df2 : DataFrame) : DataFrame :=
  { cols := df1.cols ++ df2.cols.filter fun c => !(df1.cols.contains c)
    rows := df1.rows ++ df2.rows }

/-- Keys of a record list in order of first appearance: the columns of
`pd.DataFrame(list_of_dicts)`. -/
def collectCols (rs : List Row) : List String :=
  rs.foldl
    (fun acc r =>
      r.foldl (fun acc kv => if kv.1 ∈ acc then acc else acc ++ [kv.1]) acc)
    []

/-- `pd.DataFrame(records)` from parsed JSON objects. -/
def dfOfRecords (rs : List Row) : DataFrame :=
  { cols := collectCols rs, rows := rs }

/-- Reconciliation (src/app.py lines 176-196): when
`missing_count = len(transactions_df) - len(categorized_transactions)` is
positive, take `transactions_df.iloc[len(categorized_transactions):]`,
assign the constant column `category = "Khác"`, and concatenate after the
classified rows; otherwise the parsed records pass through as-is. -/
def categorized_df (categorized_transactions : List Row)
    (transactions_df : DataFrame) : DataFrame :=
  let missing_count : Int :=
    (transactions_df.rows.length : Int) - categorized_transactions.length
  if 0 < missing_count then
    let uncategorized_rows :=
      setColumn (ilocFrom transactions_df categorized_transactions.length)
        "category" "Khác"
    concatDF (dfOfRecords categorized_transactions) uncategorized_rows
  else
    dfOfRecords categorized_transactions

/-- Helper: after assigning column `c`, that cell reads as the value. -/
theorem getCell_setCell_same (r : Row) (c v : String) :
    getCell (setCell r c v) c = some v := by
  induction r with
  | nil => simp [getCell, setCell, List.lookup]
  | cons kv rest ih =>
    obtain ⟨k1, v1⟩ := kv
    by_cases h : k1 = c
    · subst h
      simpa [getCell, setCell] using ih
    · simpa [getCell, setCell, List.lookup, h,
        beq_false_of_ne (Ne.symm h)] using ih

/-- Helper: assigning column `c` leaves every other column's cell as it
was. -/
theorem getCell_setCell_ne (r : Row) (c v c' : String) (h : c' ≠ c) :
    getCell (setCell r c v) c' = getCell r c' := by
  induction r with
  | nil => simp [getCell, setCell, List.lookup, beq_false_of_ne h]
  | cons kv rest ih =>
    obtain ⟨k1, v1⟩ := kv
    by_cases hk : k1 = c
    · subst hk
      simpa [getCell, setCell, List.lookup, beq_false_of_ne h] using ih
    · by_cases hk' : c' = k1
      · subst hk'
        simp [getCell, setCell, List.lookup, beq_false_of_ne hk]
      · simpa [getCell, setCell, List.lookup, beq_false_of_ne hk,
          beq_false_of_ne hk'] using ih

/-- Three classified records as parsed from the model's JSON. -/
def exRecords3 : List Row :=
  [[("transaction", "t1"), ("category", "A")],
   [("transaction", "t2"), ("category", "B")],
   [("transaction", "t3"), ("category", "C")]]

/-- A transactions dataframe with five rows. -/
def exTransactions5 : DataFrame :=
  { cols := ["REMARK_CLEAN"]
    rows := [[("REMARK_CLEAN", "r1")], [("REMARK_CLEAN", "r2")],
             [("REMARK_CLEAN", "r3")], [("REMARK_CLEAN", "r4")],
             [("REMARK_CLEAN", "r5")]] }

/-- Counterexample to C2 as stated: with 5 input transactions and 3
classified records the output does have 5 rows, but rows 4 and 5 carry the
literal fallback label `"Khác"`, not `"Uncategorized"` (the warning message
mentions 'Uncategorized' but the assigned category is `"Khác"`). -/
theorem reconcile_fallback_label_counterexample :
    (categorized_df exRecords3 exTransactions5).rows.length = 5 ∧
    ((categorized_df exRecords3 exTransactions5).rows.get? 3).bind
        (fun r => getCell r "category") = some "Khác" ∧
    ((categorized_df exRecords3 exTransactions5).rows.get? 4).bind
        (fun r => getCell r "category") = some "Khác" ∧
    ((categorized_df exRecords3 exTransactions5).rows.get? 3).bind
        (fun r => getCell r "category") ≠ some "Uncategorized" :=
  ⟨by decide, by decide, by decide, by decide⟩

/-- C2 (amended): when `classified_count < total_count` the output has
exactly `total_count` rows — the classified rows first, order preserved,
followed by the input rows from position `classified_count` on, each
assigned the fallback category, whose literal label is `"Khác"` (the
user-visible warning calls it 'Uncategorized'). -/
theorem reconcile_undercount (rs : List Row) (tdf : DataFrame)
    (h : rs.length < tdf.rows.length) :
    (categorized_df rs tdf).rows =
      rs ++ (tdf.rows.drop rs.length).map
        (fun r => setCell r "category" "Khác") ∧
    (categorized_df rs tdf).rows.length = tdf.rows.length ∧
    ∀ r ∈ (categorized_df rs tdf).rows.drop rs.length,
      getCell r "category" = some "Khác" := by
  have hif : (0 : Int) < (tdf.rows.length : Int) - rs.length := by omega
  have hrows : (categorized_df rs tdf).rows =
      rs ++ (tdf.rows.drop rs.length).map
        (fun r => setCell r "category" "Khác") := by
    simp [categorized_df, hif, concatDF, dfOfRecords, setColumn, ilocFrom]
  refine ⟨hrows, ?_, ?_⟩
  · rw [hrows]
    simp only [List.length_append, List.length_map, List.length_drop]
    omega
  · rw [hrows]
    intro r hr
    rw [List.drop_left] at hr
    obtain ⟨r0, -, rfl⟩ := List.mem_map.mp hr
    exact getCell_setCell_same r0 "category" "Khác"

/-- Witness for amended C2: the 5-transactions / 3-records example. -/
theorem reconcile_undercount_witness :
    (categorized_df exRecords3 exTransactions5).rows =
      exRecords3 ++ (exTransactions5.rows.drop exRecords3.length).map
        (fun r => setCell r "category" "Khác") ∧
    (categorized_df exRecords3 exTransactions5).rows.length =
      exTransactions5.rows.length ∧
    ∀ r ∈ (categorized_df exRecords3 exTransactions5).rows.drop
        exRecords3.length,
      getCell r "category" = some "Khác" :=
  reconcile_undercount exRecords3 exTransactions5 (by decide)

/-- C5: when `classified_count >= total_count` (both the equal case and the
excess case) the parsed records pass through unmodified as the output, order
preserved, with no special handling of excess rows. -/
theorem reconcile_pass_through (rs : List Row) (tdf : DataFrame)
    (h : tdf.rows.length ≤ rs.length) :
    categorized_df rs tdf = dfOfRecords rs := by
  have hif : ¬ ((0 : Int) < (tdf.rows.length : Int) - rs.length) := by omega
  simp [categorized_df, hif]

/-- Two classified records exceeding a single input transaction. -/
def exRecords2 : List Row :=
  [[("transaction", "t1"), ("category", "A")],
   [("transaction", "t2"), ("category", "B")]]

/-- A transactions dataframe with one row. -/
def exTransactions1 : DataFrame :=
  { cols := ["REMARK_CLEAN"], rows := [[("REMARK_CLEAN", "r1")]] }

/-- Witness for C5: two records against one input transaction (the excess
case) pass through as-is. -/
theorem reconcile_pass_through_witness :
    categorized_df exRecords2 exTransactions1 = dfOfRecords exRecords2 :=
  reconcile_pass_through exRecords2 exTransactions1 (by decide)

/-- One classified record. -/
def exRecords1 : List Row :=
  [[("transaction", "t1"), ("category", "A")]]

/-- A transactions dataframe with two rows. -/
def exTransactions2 : DataFrame :=
  { cols := ["REMARK_CLEAN"]
    rows := [[("REMARK_CLEAN", "r1")], [("REMARK_CLEAN", "r2")]] }

/-- Counterexample to C9 as stated: the appended fallback row does not
share the classified rows' shape — the output's columns are the union
`["transaction", "category", "REMARK_CLEAN"]`, the classified row has a
`transaction` cell while the fallback row's `transaction` cell is missing
(NaN): it carries the transaction file's columns plus `category` instead. -/
theorem reconcile_shape_counterexample :
    (categorized_df exRecords1 exTransactions2).cols =
      ["transaction", "category", "REMARK_CLEAN"] ∧
    (categorized_df exRecords1 exTransactions2).cols ≠
      ["transaction", "category"] ∧
    ((categorized_df exRecords1 exTransactions2).rows.get? 0).bind
        (fun r => getCell r "transaction") = some "t1" ∧
    ((categorized_df exRecords1 exTransactions2).rows.get? 1).bind
        (fun r => getCell r "transaction") = none :=
  ⟨by decide, by decide, by decide, by decide⟩

/-- C9 (amended): when fallback rows are appended, the output's columns are
the model-output columns `transaction`, `category` followed by the
transaction file's columns; the fallback rows do not share the classified
rows' shape: each carries its original transaction columns plus `category`
set to the fallback label, while its `transaction` cell is missing (NaN). -/
theorem reconcile_fallback_shape (rs : List Row) (tdf : DataFrame)
    (h : rs.length < tdf.rows.length)
    (hcols : collectCols rs = ["transaction", "category"])
    (ht : "transaction" ∉ tdf.cols) (hc : "category" ∉ tdf.cols)
    (hrow : ∀ r ∈ tdf.rows, getCell r "transaction" = none) :
    (categorized_df rs tdf).cols = ["transaction", "category"] ++ tdf.cols ∧
    ∀ r ∈ (categorized_df rs tdf).rows.drop rs.length,
      getCell r "transaction" = none ∧ getCell r "category" = some "Khác" := by
  have hif : (0 : Int) < (tdf.rows.length : Int) - rs.length := by omega
  constructor
  · simp only [categorized_df, hif, if_pos, concatDF, dfOfRecords, setColumn,
      ilocFrom, hcols, hc, if_neg, List.filter_append]
    simp [hc]
    intro a ha
    exact ⟨fun hh => ht (hh ▸ ha), fun hh => hc (hh ▸ ha)⟩
  · intro r hr
    have hrows : (categorized_df rs tdf).rows =
        rs ++ (tdf.rows.drop rs.length).map
          (fun r => setCell r "category" "Khác") := by
      simp [categorized_df, hif, concatDF, dfOfRecords, setColumn, ilocFrom]
    rw [hrows, List.drop_left] at hr
    obtain ⟨r0, hr0, rfl⟩ := List.mem_map.mp hr
    refine ⟨?_, getCell_setCell_same r0 "category" "Khác"⟩
    rw [getCell_setCell_ne r0 "category" "Khác" "transaction" (by decide)]
    exact hrow r0 (List.mem_of_mem_drop hr0)

/-- Witness for amended C9: one record, two transactions. -/
theorem reconcile_fallback_shape_witness :
    (categorized_df exRecords1 exTransactions2).cols =
      ["transaction", "category"] ++ exTransactions2.cols ∧
    ∀ r ∈ (categorized_df exRecords1 exTransactions2).rows.drop
        exRecords1.length,
      getCell r "transaction" = none ∧ getCell r "category" = some "Khác" :=
  reconcile_fallback_shape exRecords1 exTransactions2 (by decide) (by decide)
    (by decide) (by decide) (by decide)

/-! ## Dictionary loader (C6) -/

/-- Declarative description of a key's candidate list: one copy of the
row's full word for each occurrence of the abbreviation in that row's
`Abbreviation` cell (split on `", "`), rows in dictionary order. -/
def specCandidates (rows : List (String × String)) (k : String) : List String :=
  (rows.map fun row =>
    ((pySplitCommaSpace row.2).filter fun a => a == k).map fun _ => row.1).flatten

/-- How a candidate list grows: appended to an existing list, a singleton
list for a fresh key, absent when nothing was appended. -/
def extendOpt (o : Option (List String)) (l : List String) :
    Option (List String) :=
  match o with
  | some vs => some (vs ++ l)
  | none => if l = [] then none else some l

/-- Helper: `dictAppend` appends `v` to the key's list (creating it) and
leaves every other key alone. -/
theorem lookup_dictAppend (m : AbbrMap) (a v k : String) :
    (dictAppend m a v).lookup k =
      if a = k then some (((m.lookup k).getD []) ++ [v]) else m.lookup k := by
  induction m with
  | nil =>
    by_cases h : a = k
    · subst h
      simp [dictAppend, List.lookup]
    · simp [dictAppend, List.lookup, h, beq_false_of_ne (Ne.symm h)]
  | cons p rest ih =>
    obtain ⟨k', vs⟩ := p
    by_cases hk : k' = a
    · subst hk
      by_cases h : k' = k
      · subst h
        simp [dictAppend, List.lookup]
      · simp [dictAppend, List.lookup, h, beq_false_of_ne (Ne.symm h)]
    · by_cases h : k' = k
      · subst h
        have : ¬ a = k' := fun hh => hk hh.symm
        simp [dictAppend, List.lookup, hk, this, ih]
      · simp [dictAppend, List.lookup, hk, beq_false_of_ne (Ne.symm h), ih]

/-- Helper: extending by nothing changes nothing. -/
theorem extendOpt_nil (o : Option (List String)) : extendOpt o [] = o := by
  cases o <;> simp [extendOpt]

/-- Helper: folding one appended word into the accumulated view. -/
theorem extendOpt_getD_append (o : Option (List String)) (v : String)
    (l : List String) :
    extendOpt (some (o.getD [] ++ [v])) l = extendOpt o (v :: l) := by
  cases o <;> simp [extendOpt]

/-- Helper: `extendOpt` composes along list append. -/
theorem extendOpt_extendOpt (o : Option (List String)) (l1 l2 : List String) :
    extendOpt (extendOpt o l1) l2 = extendOpt o (l1 ++ l2) := by
  cases o with
  | some vs => simp [extendOpt]
  | none =>
    by_cases h1 : l1 = []
    · subst h1
      simp [extendOpt]
    · by_cases h2 : l2 = [] <;> simp [extendOpt, h1, h2]

/-- Helper: the inner loop of the loader (over one row's abbreviations)
appends one copy of `v` per occurrence of `k`. -/
theorem lookup_foldl_dictAppend (abbrs : List String) (v k : String)
    (m : AbbrMap) :
    (abbrs.foldl (fun m abbr => dictAppend m abbr v) m).lookup k =
      extendOpt (m.lookup k) ((abbrs.filter fun a => a == k).map fun _ => v) := by
  induction abbrs generalizing m with
  | nil => simp [extendOpt_nil]
  | cons a as ih =>
    rw [List.foldl_cons, ih, lookup_dictAppend]
    by_cases h : a = k
    · subst h
      simp only [if_pos, List.filter_cons, beq_self_eq_true, if_true,
        List.map_cons]
      exact extendOpt_getD_append _ _ _
    · simp only [h, if_false, List.filter_cons, beq_false_of_ne h,
        Bool.false_eq_true, if_neg]

/-- Helper: the loader's outer loop accumulates `specCandidates` row by
row. -/
theorem lookup_load_loop (rows : List (String × String)) (k : String)
    (m : AbbrMap) :
    (rows.foldl
        (fun m row =>
          (pySplitCommaSpace row.2).foldl
            (fun m abbr => dictAppend m abbr row.1) m)
        m).lookup k =
      extendOpt (m.lookup k) (specCandidates rows k) := by
  induction rows generalizing m with
  | nil => simp [specCandidates, extendOpt_nil]
  | cons row rest ih =>
    rw [List.foldl_cons, ih, lookup_foldl_dictAppend, extendOpt_extendOpt]
    simp [specCandidates]

/-- C6: the Dictionary Loader maps each key to exactly the row-ordered list
of full words appended for it — one per occurrence of the key in a row's
`Abbreviation` cell split on `", "` (duplicates allowed) — and a key is
present exactly when that list is non-empty, so every key maps to a
non-empty list. -/
theorem load_dict_candidates (rows : List (String × String)) (k : String) :
    (load_abbreviation_dict rows).lookup k =
      if specCandidates rows k = [] then none
      else some (specCandidates rows k) := by
  have h := lookup_load_loop rows k []
  rw [load_abbreviation_dict, h]
  simp [extendOpt, List.lookup]

/-! ## Classifier prompt input (C7) -/

/-- A transactions-file row, reduced to the fields the pipeline touches:
the raw `REMARK_CLEAN` cell and the derived `REMARK` cell (absent before
expansion, set by it). -/
structure TxnRow where
  remark_clean : String
  remark : Option String

/-- src/app.py line 138:
`transactions_df["REMARK"] = transactions_df["REMARK_CLEAN"].apply(lambda
x: expand_abbreviations(str(x), abbreviation_map))` — the expansion step
stores the expanded remark in the derived `REMARK` field. -/
def expandRemarks (llm : LLM) (amap : AbbrMap) (rows : List TxnRow) :
    List TxnRow :=
  rows.map fun r =>
    { r with remark := expand_abbreviations llm r.remark_clean amap }

/-- src/app.py line 155: `transactions_text =
"\n".join(transactions_df["REMARK_CLEAN"].astype(str).tolist())` — the text
block interpolated into the classification prompt. -/
def transactions_text (rows : List TxnRow) : String :=
  String.intercalate "\n" (rows.map fun r => r.remark_clean)

/-- C7: after the expansion step, the text handed to the classifier is the
join of the raw `REMARK_CLEAN` remarks — for every model behavior and every
abbreviation map — while the expanded remark is computed and stored in the
`REMARK` field but is not what is sent to classification. -/
theorem classifier_prompt_uses_raw (llm : LLM) (amap : AbbrMap)
    (rows : List TxnRow) :
    transactions_text (expandRemarks llm amap rows) =
      String.intercalate "\n" (rows.map fun r => r.remark_clean) ∧
    (expandRemarks llm amap rows).map (fun r => r.remark) =
      rows.map fun r => expand_abbreviations llm r.remark_clean amap := by
  constructor
  · simp only [transactions_text, expandRemarks, List.map_map]
    rfl
  · simp only [expandRemarks, List.map_map]
    rfl
